import Mathlib

/-!
Verification of the `advanced-vector` repository (`src/advanced-vector/vector.h`):
a dynamic array `Vector<T>` built on a raw-memory owner `RawMemory<T>`.

The container state observable through the public interface is its capacity
(`data_.Capacity()`) and the list of live constructed elements
(slots `[0, size_)` of the buffer).  We embed it as a capacity together with
the list of element values; `size_` is the length of that list.  Machine
`size_t` arithmetic never overflows in any reachable computation modelled here
(all sizes are small Nat), so `Nat` is used directly.

Throwing element constructors are modelled by passing `Option α` for the value
the constructor would produce: `none` means the construction throws.  Moves and
copies of already-constructed values are value-level copies (the element types
of the claims have value semantics); the move-vs-copy *selection* made by the
code's `if constexpr` dispatch is modelled separately by the `Traits` record.
-/

/-- State of `Vector<T>` (vector.h:92-345): `cap` is `data_.Capacity()`,
`elems` the values in the live slots `[0, size_)`, so `size_ = elems.length`. -/
structure Vec (α : Type) where
  cap : Nat
  elems : List α
  deriving DecidableEq, Repr

namespace Vec

variable {α : Type}

/-- The `Size()` (vector.h:297-299). -/
def size (v : Vec α) : Nat := v.elems.length

/-- The `Capacity()` (vector.h:301-303). -/
def capacity (v : Vec α) : Nat := v.cap

/-- Class invariant: live elements fit in the buffer (`size_ ≤ capacity_`). -/
def WF (v : Vec α) : Prop := v.size ≤ v.cap

instance (v : Vec α) : Decidable v.WF := by unfold WF; infer_instance

/-- The default-constructed vector (vector.h:99): null buffer, capacity 0, size 0. -/
def empty : Vec α := ⟨0, []⟩

/-- New capacity chosen on reallocating growth: `size_ == 0 ? 1 : size_ * 2`
(vector.h:194 and vector.h:286). -/
def growCap (n : Nat) : Nat := if n = 0 then 1 else n * 2

/-- The `EmplaceBack(args...)` (vector.h:280-295) together with the index of the
returned reference `data_[size_++]`.  If `size_ < Capacity()` the element is
constructed in place at slot `size_`; otherwise a block of `growCap size_`
slots is allocated, the new element constructed at slot `size_` of that block,
the old elements transferred by `FillNewData`, the old ones destroyed, and the
blocks swapped.  Either way the live slots end as the old ones followed by the
new element, and the returned reference is slot `size_` (old size). -/
def emplaceBackR (v : Vec α) (x : α) : Vec α × Nat :=
  if v.size < v.cap then (⟨v.cap, v.elems ++ [x]⟩, v.size)
  else (⟨growCap v.size, v.elems ++ [x]⟩, v.size)

/-- The `EmplaceBack` without the returned reference. -/
def emplaceBack (v : Vec α) (x : α) : Vec α := (v.emplaceBackR x).1

/-- The `PushBack(value)` (vector.h:268-271): forwards to `EmplaceBack`. -/
def pushBack (v : Vec α) (x : α) : Vec α := v.emplaceBack x

/-- The `PopBack()` (vector.h:273-278): if `size_ > 0`, destroy the last live
element and decrement `size_`; otherwise do nothing. -/
def popBack (v : Vec α) : Vec α :=
  if 0 < v.size then ⟨v.cap, v.elems.dropLast⟩ else v

/-- Net effect on the live slots of
`std::move_backward(begin + i, begin + (n-1), begin + n)` (vector.h:181),
acting on a buffer `l` whose slots `[0, n]` are live: slots `[i+1, n)` receive
the old contents of slots `[i, n-1)`; slots `[0, i]` and slot `n` keep theirs. -/
def moveBackwardRange (l : List α) (i n : Nat) : List α :=
  l.take (i + 1) ++ (l.drop i).take (n - 1 - i) ++ l.drop n

/-- The `Emplace(pos, args...)` (vector.h:172-217) with `pos = begin() + i`, and the
offset of the returned iterator `begin() + offset`.
With spare capacity and `pos ≠ end()`: construct the value in a temporary,
move-construct the last element `data_[size_-1]` into slot `size_`
(vector.h:180), shift `[pos, end()-1)` one slot right by
`std::move_backward` (vector.h:181), then move-assign the temporary into slot
`i` (vector.h:182).  With spare capacity and `pos = end()`: construct in place
at slot `size_` (vector.h:185).  With the capacity exhausted: allocate
`growCap size_` slots, construct the value at slot `i` of the new block
(vector.h:195), transfer old slots `[0, i)` to `[0, i)` and `[i, size_)` to
`[i+1, size_+1)` (vector.h:197-209), destroy the old elements and swap
(vector.h:211-212). -/
def emplace [Inhabited α] (v : Vec α) (i : Nat) (x : α) : Vec α × Nat :=
  if v.size < v.cap then
    if i ≠ v.size then
      (⟨v.cap, ((moveBackwardRange (v.elems ++ [v.elems.getLast!]) i v.size).set i x)⟩, i)
    else
      (⟨v.cap, v.elems ++ [x]⟩, i)
  else
    (⟨growCap v.size, v.elems.take i ++ [x] ++ v.elems.drop i⟩, i)

/-- The `Erase(pos)` (vector.h:218-225) with `pos = begin() + i`, and the offset of
the returned iterator: `std::move(begin()+i+1, end(), begin()+i)` shifts the
tail one slot left, the now-duplicate last slot is destroyed and `size_`
decremented. -/
def erase (v : Vec α) (i : Nat) : Vec α × Nat :=
  (⟨v.cap, v.elems.take i ++ v.elems.drop (i + 1)⟩, i)

/-- The `Insert(pos, value)` (vector.h:226-233): forwards to `Emplace`. -/
def insert [Inhabited α] (v : Vec α) (i : Nat) (x : α) : Vec α × Nat := v.emplace i x

/-- The `Reserve(new_capacity)` (vector.h:240-251): no-op when
`new_capacity ≤ data_.Capacity()`; otherwise allocate exactly `new_capacity`
slots, transfer all live elements into them (`FillNewData`), destroy the old
elements and swap the blocks. -/
def reserve (v : Vec α) (n : Nat) : Vec α :=
  if n ≤ v.cap then v else ⟨n, v.elems⟩

/-- The `Resize(new_size)` (vector.h:254-266): no-op when equal; destroy the excess
tail when shrinking; `Reserve` then value-construct (`T()`, modelled by
`default`) the new tail when growing. -/
def resize [Inhabited α] (v : Vec α) (n : Nat) : Vec α :=
  if n = v.size then v
  else if n < v.size then ⟨v.cap, v.elems.take n⟩
  else
    let r := v.reserve n
    ⟨r.cap, r.elems ++ List.replicate (n - v.size) default⟩

/-- Copy assignment `operator=(const Vector&)` (vector.h:119-140).  `isSelf`
models the address test `this != &rhs`: on self-assignment nothing happens.
Otherwise: if `rhs.Size() > data_.Capacity()`, build a full copy and swap it in
(the copy's capacity is `rhs.size_`, vector.h:108-113); else if
`rhs.Size() < Size()`, copy-assign the first `rhs.size_` slots and destroy the
trailing `size_ - rhs.size_` elements; else copy-assign the first `size_`
slots and copy-construct the remaining `rhs.size_ - size_` from the source's
tail. -/
def copyAssign (dst src : Vec α) (isSelf : Bool) : Vec α :=
  if isSelf then dst
  else if src.size > dst.cap then ⟨src.size, src.elems⟩
  else if src.size < dst.size then ⟨dst.cap, src.elems⟩
  else ⟨dst.cap, src.elems.take dst.size ++ src.elems.drop dst.size⟩

/-- Move construction `Vector(Vector&& other)` (vector.h:115-117): the new
object default-constructs (capacity 0, size 0) and swaps with the source.
Returns (destination, source after the call). -/
def moveCtor (src : Vec α) : Vec α × Vec α := (src, ⟨0, []⟩)

/-- Move assignment `operator=(Vector&&)` (vector.h:141-147): unless
self-assignment, swap states with the source.  Returns
(destination after, source after). -/
def moveAssign (dst src : Vec α) (isSelf : Bool) : Vec α × Vec α :=
  if isSelf then (dst, src) else (src, dst)

/-- The `Swap(other)` (vector.h:235-238): exchanges buffers and sizes. -/
def swapOp (a b : Vec α) : Vec α × Vec α := (b, a)

/-- The compile-time type traits consulted by the reallocating transfers
(vector.h:197, vector.h:204, vector.h:320):
`std::is_nothrow_move_constructible_v<T>` and `std::is_copy_constructible_v<T>`. -/
structure Traits where
  nothrowMove : Bool
  copyConstructible : Bool
  deriving DecidableEq, Repr

/-- Whether a reallocating transfer move-constructs or copy-constructs the
elements into the new block. -/
inductive TransferMode where
  | move
  | copy
  deriving DecidableEq, Repr

/-- The `if constexpr` dispatch of `FillNewData` (vector.h:320) and of the
reallocating `Emplace` path (vector.h:197, vector.h:204): the elements are
moved when `std::is_nothrow_move_constructible_v<T> ||
!std::is_copy_constructible_v<T>`, otherwise copied. -/
def fillMode (t : Traits) : TransferMode :=
  if t.nothrowMove || !t.copyConstructible then .move else .copy

/-- The `EmplaceBack` with a possibly-throwing constructor: the `Option α` argument
is the value the construction from `args...` would produce, `none` meaning it
throws.  On a throw with spare capacity, the placement-new at
`data_.GetAddress() + size_` (vector.h:283) fails before `size_++` runs, so the
vector is unchanged.  On a throw with the capacity exhausted, the placement-new
into the fresh block (vector.h:287) fails before any transfer; `new_data`'s
`RawMemory` destructor releases the fresh block and the vector is unchanged. -/
def emplaceBackE (v : Vec α) (ctor : Option α) : Except (Vec α) (Vec α × Nat) :=
  match ctor with
  | none => .error v
  | some x => .ok (v.emplaceBackR x)

/-- One abstract memory action of a reallocating growth. -/
inductive Act where
  | ctorNew (i : Nat)
  | transferOld (i : Nat)
  deriving DecidableEq, Repr

/-- The sequence of element constructions `EmplaceBack` performs in the new (or
current) buffer, in program order.  With spare capacity there is only the
placement-new at slot `size_` (vector.h:283).  On the reallocating path
(vector.h:286-292) the new element is constructed at slot `size_` of the new
block (vector.h:287) and only then does `FillNewData` (vector.h:289,
vector.h:318-326) transfer the old elements `0, 1, ..., size_-1` into it. -/
def emplaceBackActs (v : Vec α) : List Act :=
  if v.size < v.cap then [Act.ctorNew v.size]
  else Act.ctorNew v.size :: (List.range v.size).map Act.transferOld

/-- The `Emplace` with a possibly-throwing constructor (`none` = the construction
from `args...` throws).  The `Bool` paired with the state on the error path
records whether the unwinding executed `operator delete` on a pointer interior
to (or equal to) the vector's still-owned buffer.  With spare capacity the
whole insertion body sits in a `try` whose handler runs
`operator delete (end())` before rethrowing (vector.h:188-191); `end()` is
`data_.GetAddress() + size_`, an address inside the block the vector still
owns, so a throw from the temporary's construction (vector.h:179, and
vector.h:185 for `pos = end()`) reaches that deallocation: the flag is `true`.
On the reallocating path there is no handler; a throw from the placement-new
at `new_data + offset` (vector.h:195) propagates while `new_data`'s destructor
releases only the fresh block: the flag is `false` and the vector unchanged. -/
def emplaceE [Inhabited α] (v : Vec α) (i : Nat) (ctor : Option α) :
    Except (Vec α × Bool) (Vec α × Nat) :=
  if v.size < v.cap then
    match ctor with
    | none => .error (v, true)
    | some x => .ok (v.emplace i x)
  else
    match ctor with
    | none => .error (v, false)
    | some x => .ok (v.emplace i x)

end Vec

/-- A public mutating operation of `Vector<T>` other than move and `Swap`
(those two are the documented exceptions to capacity monotonicity).
`assign b` is copy assignment from a distinct vector `b`; `assignSelf` is
self-assignment. -/
inductive Op (α : Type) where
  | push (x : α)
  | pop
  | emp (i : Nat) (x : α)
  | ers (i : Nat)
  | ins (i : Nat) (x : α)
  | reserve (n : Nat)
  | resize (n : Nat)
  | assign (b : Vec α)
  | assignSelf

namespace Op

variable {α : Type}

/-- Precondition of an operation: `Emplace`/`Insert` take an iterator in
`[begin, end]`, `Erase` one in `[begin, end)`. -/
def valid : Op α → Vec α → Prop
  | emp i _, v => i ≤ v.size
  | ers i, v => i < v.size
  | ins i _, v => i ≤ v.size
  | _, _ => True

/-- Apply an operation to a vector. -/
def apply [Inhabited α] : Op α → Vec α → Vec α
  | push x, v => v.pushBack x
  | pop, v => v.popBack
  | emp i x, v => (v.emplace i x).1
  | ers i, v => (v.erase i).1
  | ins i x, v => (v.insert i x).1
  | reserve n, v => v.reserve n
  | resize n, v => v.resize n
  | assign b, v => v.copyAssign b false
  | assignSelf, v => v.copyAssign v true

end Op

/-- A `PushBack`/`PopBack` step, for sequences of stack operations. -/
inductive PP (α : Type) where
  | push (x : α)
  | pop
  deriving DecidableEq, Repr

namespace PP

variable {α : Type}

/-- Run a sequence of `PushBack`/`PopBack` calls on a vector. -/
def run (s : List (PP α)) (v : Vec α) : Vec α :=
  s.foldl (fun w step => match step with
    | push x => w.pushBack x
    | pop => w.popBack) v

/-- Number of `PushBack` calls in the sequence. -/
def countPush : List (PP α) → Nat
  | [] => 0
  | push _ :: t => countPush t + 1
  | pop :: t => countPush t

/-- Number of `PopBack` calls in the sequence. -/
def countPop : List (PP α) → Nat
  | [] => 0
  | push _ :: t => countPop t
  | pop :: t => countPop t + 1

/-- The values pushed, in push order. -/
def pushed : List (PP α) → List α
  | [] => []
  | push x :: t => x :: pushed t
  | pop :: t => pushed t

/-- Reference stack semantics: `push` appends, `pop` drops the last element of
a nonempty list and does nothing to an empty one. -/
def stackRun (s : List (PP α)) (l : List α) : List α :=
  s.foldl (fun l step => match step with
    | push x => l ++ [x]
    | pop => l.dropLast) l

/-- The `noPopOnEmpty k s`: running `s` on a stack of `k` elements, no `pop` ever
hits an empty stack. -/
def noPopOnEmpty : Nat → List (PP α) → Bool
  | _, [] => true
  | k, push _ :: t => noPopOnEmpty (k + 1) t
  | k, pop :: t => decide (0 < k) && noPopOnEmpty (k - 1) t

end PP

section Sanity2

example : (Vec.mk 2 [1, 2] : Vec Nat).emplaceBackActs =
    [Vec.Act.ctorNew 2, Vec.Act.transferOld 0, Vec.Act.transferOld 1] := by decide
example : (Vec.mk 4 [10, 20] : Vec Nat).emplaceE 0 none =
    .error (⟨4, [10, 20]⟩, true) := by rfl
example : PP.run [PP.pop, PP.push 5] Vec.empty = (⟨1, [5]⟩ : Vec Nat) := by decide

end Sanity2

section Helpers

variable {α : Type}

/-- The `insertIdx` written with `take`/`drop`. -/
lemma insertIdx_take_drop (l : List α) (i : Nat) (x : α) (h : i ≤ l.length) :
    l.insertIdx i x = l.take i ++ x :: l.drop i := by
  induction l generalizing i with
  | nil =>
    have : i = 0 := Nat.le_zero.mp h
    subst this
    simp
  | cons a t ih =>
    cases i with
    | zero => simp
    | succ j =>
      simp only [List.insertIdx_succ_cons, List.take_succ_cons, List.drop_succ_cons,
        List.cons_append, List.cons.injEq, true_and]
      exact ih j (Nat.le_of_succ_le_succ h)

/-- The in-place shift path of `Emplace` (temporary, move-construct the last
element into the trailing slot, `move_backward`, assign at `i`) inserts the
value at index `i`. -/
lemma moveBackward_set_eq [Inhabited α] (l : List α) (i : Nat) (x : α)
    (h : i < l.length) :
    (Vec.moveBackwardRange (l ++ [l.getLast!]) i l.length).set i x
      = l.take i ++ x :: l.drop i := by
  have hne : l ≠ [] := List.ne_nil_of_length_pos (Nat.lt_of_le_of_lt (Nat.zero_le _) h)
  have hg : l.getLast! = l.getLast hne := by
    rw [List.getLast!_eq_getElem!, List.getLast_eq_getElem]
    exact getElem!_pos l _ (by omega)
  have h1 : i + 1 ≤ l.length := h
  have h2 : i ≤ l.length := Nat.le_of_lt h
  have h3 : l.length ≤ l.length := Nat.le_refl _
  have h4 : l.length - 1 - i ≤ (l.drop i).length := by
    rw [List.length_drop]; omega
  rw [Vec.moveBackwardRange, List.take_append_of_le_length h1,
    List.drop_append_of_le_length h2, List.drop_append_of_le_length h3,
    List.drop_length, List.nil_append, List.take_append_of_le_length h4,
    List.append_assoc]
  have h5 : i < (l.take (i + 1)).length := by
    rw [List.length_take]; omega
  rw [List.set_append_left _ _ h5]
  have h6 : l.take (i + 1) = l.take i ++ [l[i]] := by
    rw [List.take_succ, List.getElem?_eq_getElem h]
    rfl
  have h7 : (l.take (i + 1)).set i x = l.take i ++ [x] := by
    rw [h6, List.set_append_right _ _ (by rw [List.length_take]; omega)]
    have hz : i - (l.take i).length = 0 := by rw [List.length_take]; omega
    rw [hz]
    rfl
  rw [h7]
  have hdne : l.drop i ≠ [] := by
    intro hc
    have hlen := congrArg List.length hc
    rw [List.length_drop] at hlen
    simp at hlen
    omega
  have h8 : l.length - 1 - i = (l.drop i).length - 1 := by
    rw [List.length_drop]; omega
  have h9 : (l.drop i).take (l.length - 1 - i) = (l.drop i).dropLast := by
    rw [h8, List.dropLast_eq_take]
  have h10 : l.getLast! = (l.drop i).getLast hdne := by
    rw [hg, List.getLast_drop]
  rw [h9, h10, List.dropLast_concat_getLast hdne, List.append_assoc,
    List.singleton_append]

/-- The `Emplace` at a valid position inserts the constructed value at that index. -/
lemma Vec.emplace_elems [Inhabited α] (v : Vec α) (i : Nat) (x : α)
    (h : i ≤ v.size) :
    ((v.emplace i x).1).elems = v.elems.insertIdx i x := by
  simp only [Vec.size] at h
  simp only [Vec.emplace, Vec.size]
  split_ifs with hc hi
  · dsimp only
    have hlt : i < v.elems.length := Nat.lt_of_le_of_ne h hi
    rw [moveBackward_set_eq v.elems i x hlt,
      insertIdx_take_drop v.elems i x (Nat.le_of_lt hlt)]
  · dsimp only
    have hie : i = v.elems.length := not_not.mp hi
    subst hie
    rw [List.insertIdx_length_self]
  · dsimp only
    rw [insertIdx_take_drop v.elems i x h, List.append_assoc, List.singleton_append]

/-- The returned iterator offset of `Emplace` is the requested offset. -/
lemma Vec.emplace_idx [Inhabited α] (v : Vec α) (i : Nat) (x : α) :
    (v.emplace i x).2 = i := by
  rw [Vec.emplace]
  split_ifs <;> rfl

/-- Capacity after `Emplace`: unchanged on the spare-capacity path, `growCap`
of the size on the reallocating path. -/
lemma Vec.emplace_cap [Inhabited α] (v : Vec α) (i : Nat) (x : α) :
    ((v.emplace i x).1).cap = if v.size < v.cap then v.cap else Vec.growCap v.size := by
  rw [Vec.emplace]
  split_ifs <;> rfl

/-- Size after `Emplace` at a valid position grows by one. -/
lemma Vec.emplace_size [Inhabited α] (v : Vec α) (i : Nat) (x : α)
    (h : i ≤ v.size) :
    ((v.emplace i x).1).size = v.size + 1 := by
  rw [Vec.size, Vec.emplace_elems v i x h, List.length_insertIdx _ _ h]
  rfl

/-- The `growCap` is the doubling policy `max 1 (2 * n)` at the growth trigger. -/
lemma growCap_eq (n : Nat) : Vec.growCap n = max 1 (2 * n) := by
  unfold Vec.growCap
  split_ifs with h <;> omega

/-- Elements after `EmplaceBack`: the old ones followed by the new value. -/
lemma Vec.emplaceBack_elems (v : Vec α) (x : α) :
    (v.emplaceBack x).elems = v.elems ++ [x] := by
  unfold emplaceBack emplaceBackR
  split_ifs <;> rfl

/-- Capacity after `EmplaceBack`. -/
lemma Vec.emplaceBack_cap (v : Vec α) (x : α) :
    (v.emplaceBack x).cap = if v.size < v.cap then v.cap else Vec.growCap v.size := by
  unfold emplaceBack emplaceBackR
  split_ifs <;> rfl

/-- The index of the reference returned by `EmplaceBack` is the old size. -/
lemma Vec.emplaceBackR_idx (v : Vec α) (x : α) :
    (v.emplaceBackR x).2 = v.size := by
  unfold emplaceBackR
  split_ifs <;> rfl

/-- The `PopBack` always drops the last element of the live list (`dropLast` of an
empty list is empty, matching the `size_ > 0` guard). -/
lemma Vec.popBack_elems (v : Vec α) : (v.popBack).elems = v.elems.dropLast := by
  unfold popBack
  split_ifs with h
  · rfl
  · have : v.elems = [] := by
      cases hv : v.elems with
      | nil => rfl
      | cons a t =>
        exfalso
        apply h
        rw [Vec.size, hv]
        simp
    rw [this]
    rfl

/-- The `PopBack` keeps the capacity. -/
lemma Vec.popBack_cap (v : Vec α) : (v.popBack).cap = v.cap := by
  unfold popBack
  split_ifs <;> rfl

end Helpers

section Claims1

/-- C3: growth triggered by insertion beyond capacity (which the invariant
makes `size_ = Capacity()`) sets the new capacity to `max 1 (2 * old capacity)`,
both for `PushBack`/`EmplaceBack` and for `Emplace`; and starting from a
default-constructed vector, the capacity is 1 after the 1st push, 2 after the
2nd and 4 after the 3rd. -/
theorem growth_doubling :
    (∀ (v : Vec Nat) (x : Nat), v.size = v.cap →
      (v.pushBack x).cap = max 1 (2 * v.cap)) ∧
    (∀ (v : Vec Nat) (i x : Nat), v.size = v.cap →
      ((v.emplace i x).1).cap = max 1 (2 * v.cap)) ∧
    ((Vec.empty.pushBack 10 : Vec Nat).cap = 1 ∧
      ((Vec.empty.pushBack 10).pushBack 11 : Vec Nat).cap = 2 ∧
      (((Vec.empty.pushBack 10).pushBack 11).pushBack 12 : Vec Nat).cap = 4) := by
  refine ⟨?_, ?_, by decide, by decide, by decide⟩
  · intro v x h
    rw [Vec.pushBack, Vec.emplaceBack_cap, if_neg (by omega), h, growCap_eq]
  · intro v i x h
    rw [Vec.emplace_cap, if_neg (by omega), h, growCap_eq]

/-- Witness for C3 at concrete inputs: a full vector of capacity 2 doubles to
4 on push, and a full vector of capacity 1 doubles to 2 on `Emplace`. -/
theorem growth_doubling_witness :
    ((Vec.mk 2 [5, 6] : Vec Nat).pushBack 7).cap = max 1 (2 * 2) ∧
    (((Vec.mk 1 [4] : Vec Nat).emplace 0 9).1).cap = max 1 (2 * 1) :=
  ⟨growth_doubling.1 ⟨2, [5, 6]⟩ 7 (by decide),
    growth_doubling.2.1 ⟨1, [4]⟩ 0 9 (by decide)⟩

/-- C10: `EmplaceBack` returns a reference to the newly constructed element:
the returned index plus one is the new size (it is the last index) and the
element at that index is the new value. -/
theorem emplaceBack_returns_new_element {α : Type} (v : Vec α) (x d : α) :
    (v.emplaceBackR x).2 + 1 = (v.emplaceBackR x).1.size ∧
    ((v.emplaceBackR x).1).elems.getD (v.emplaceBackR x).2 d = x := by
  constructor
  · show (v.emplaceBackR x).2 + 1 = (v.emplaceBack x).size
    rw [Vec.emplaceBackR_idx]
    show v.size + 1 = (v.emplaceBack x).elems.length
    rw [Vec.emplaceBack_elems, List.length_append]
    rfl
  · show (v.emplaceBack x).elems.getD (v.emplaceBackR x).2 d = x
    rw [Vec.emplaceBackR_idx, Vec.emplaceBack_elems, Vec.size,
      List.getD_eq_getElem?_getD, List.getElem?_concat_length]
    rfl

/-- C5: copy assignment makes the destination's size and contents equal the
source's in all three capacity branches; self-assignment (guarded by
`this != &rhs`) changes nothing. -/
theorem copy_assign_spec {α : Type} :
    (∀ dst src : Vec α, (dst.copyAssign src false).size = src.size ∧
      (dst.copyAssign src false).elems = src.elems) ∧
    (∀ c : Vec α, c.copyAssign c true = c) := by
  constructor
  · intro dst src
    unfold Vec.copyAssign
    rw [if_neg Bool.false_ne_true]
    split_ifs with h1 h2
    · exact ⟨rfl, rfl⟩
    · exact ⟨rfl, rfl⟩
    · constructor
      · show (src.elems.take dst.size ++ src.elems.drop dst.size).length = src.elems.length
        rw [List.take_append_drop]
      · show src.elems.take dst.size ++ src.elems.drop dst.size = src.elems
        rw [List.take_append_drop]
  · intro c
    rfl

/-- C6 as stated is false at a concrete input: after the move assignment
`a = std::move(b)` with `a` holding three elements and `b` two, the moved-from
`b` holds `a`'s former three elements — its size is 3, not 0. -/
theorem moveAssign_source_not_empty_cex :
    ¬ (((Vec.mk 3 [1, 2, 3] : Vec Nat).moveAssign ⟨2, [4, 5]⟩ false).2.size = 0) := by
  decide

/-- C6 amended: the source of a move *construction* is left empty with
capacity 0 and the destination receives exactly its former contents, no
element copied; move *assignment* swaps the two containers' states, so its
source ends with the destination's former contents (empty only if the
destination was empty), and is a no-op on self-assignment. -/
theorem move_transfer_spec {α : Type} :
    (∀ src : Vec α, src.moveCtor = (src, ⟨0, []⟩)) ∧
    (∀ dst src : Vec α, dst.moveAssign src false = (src, dst)) ∧
    (∀ dst src : Vec α, dst.moveAssign src true = (dst, src)) :=
  ⟨fun _ => rfl, fun _ _ => rfl, fun _ _ => rfl⟩

/-- C9: `Reserve(n)` with `n ≤ Capacity()` changes nothing; with
`n > Capacity()` it sets the capacity to exactly `n` and keeps the size and
all element values; the transfer into the new block move-constructs exactly
when the element type is nothrow-move-constructible or not copy-constructible,
and copy-constructs otherwise. -/
theorem reserve_spec {α : Type} :
    (∀ (v : Vec α) (n : Nat), n ≤ v.cap → v.reserve n = v) ∧
    (∀ (v : Vec α) (n : Nat), v.cap < n →
      (v.reserve n).cap = n ∧ (v.reserve n).size = v.size ∧
        (v.reserve n).elems = v.elems) ∧
    (∀ t : Vec.Traits, Vec.fillMode t = Vec.TransferMode.move ↔
      (t.nothrowMove = true ∨ t.copyConstructible = false)) := by
  refine ⟨?_, ?_, ?_⟩
  · intro v n h
    unfold Vec.reserve
    rw [if_pos h]
  · intro v n h
    unfold Vec.reserve
    rw [if_neg (by omega)]
    exact ⟨rfl, rfl, rfl⟩
  · intro t
    unfold Vec.fillMode
    rcases t with ⟨nm, cc⟩
    cases nm <;> cases cc <;> simp

/-- Witness for C9: `Reserve 3` on capacity 5 is the identity, and `Reserve 7`
on capacity 2 yields capacity exactly 7 with the elements kept. -/
theorem reserve_spec_witness :
    ((Vec.mk 5 [1, 2] : Vec Nat).reserve 3 = ⟨5, [1, 2]⟩) ∧
    (((Vec.mk 2 [1, 2] : Vec Nat).reserve 7).cap = 7 ∧
      ((Vec.mk 2 [1, 2] : Vec Nat).reserve 7).size = (Vec.mk 2 [1, 2] : Vec Nat).size ∧
      ((Vec.mk 2 [1, 2] : Vec Nat).reserve 7).elems = [1, 2]) :=
  ⟨reserve_spec.1 ⟨5, [1, 2]⟩ 3 (by decide),
    reserve_spec.2.1 ⟨2, [1, 2]⟩ 7 (by decide)⟩

/-- C1 (failing input evaluated in the model): with spare capacity
(size 2, capacity 4) and `pos = begin() < end()`, a throw from the temporary's
construction is caught by the handler at vector.h:188-191, which calls
`operator delete (end())` — deallocating an address inside the vector's
still-owned buffer (the `true` flag) — instead of leaving the container
untouched. -/
theorem emplace_throw_frees_buffer :
    (Vec.mk 4 [10, 20] : Vec Nat).emplaceE 0 none =
      Except.error (⟨4, [10, 20]⟩, true) := by
  rfl

end Claims1

section Claims2

variable {α : Type}

/-- Running `PushBack`/`PopBack` calls on a vector follows the reference stack
semantics on the element list, for every starting vector. -/
lemma run_elems (s : List (PP α)) (v : Vec α) :
    (PP.run s v).elems = PP.stackRun s v.elems := by
  induction s generalizing v with
  | nil => rfl
  | cons a t ih =>
    cases a with
    | push x =>
      show (PP.run t (v.pushBack x)).elems = PP.stackRun t (v.elems ++ [x])
      rw [ih (v.pushBack x)]
      show PP.stackRun t (v.emplaceBack x).elems = PP.stackRun t (v.elems ++ [x])
      rw [Vec.emplaceBack_elems]
    | pop =>
      show (PP.run t v.popBack).elems = PP.stackRun t v.elems.dropLast
      rw [ih v.popBack, Vec.popBack_elems]

/-- Length bookkeeping for the stack semantics when no pop hits an empty
stack: final length + pops = initial length + pushes. -/
lemma stackRun_length (s : List (PP α)) (l : List α)
    (h : PP.noPopOnEmpty l.length s = true) :
    (PP.stackRun s l).length + PP.countPop s = l.length + PP.countPush s := by
  induction s generalizing l with
  | nil => rfl
  | cons a t ih =>
    cases a with
    | push x =>
      have h' : PP.noPopOnEmpty (l ++ [x]).length t = true := by
        rw [List.length_append]
        exact h
      have hrec := ih (l ++ [x]) h'
      simp only [List.length_append, List.length_singleton] at hrec
      show (PP.stackRun t (l ++ [x])).length + PP.countPop t
        = l.length + (PP.countPush t + 1)
      omega
    | pop =>
      rw [PP.noPopOnEmpty, Bool.and_eq_true, decide_eq_true_eq] at h
      obtain ⟨h0, h1⟩ := h
      have h' : PP.noPopOnEmpty l.dropLast.length t = true := by
        rw [List.length_dropLast]
        exact h1
      have hrec := ih l.dropLast h'
      rw [List.length_dropLast] at hrec
      show (PP.stackRun t l.dropLast).length + (PP.countPop t + 1)
        = l.length + PP.countPush t
      omega

/-- The stack semantics only ever keeps initial elements and pushed values, in
order. -/
lemma stackRun_sublist (s : List (PP α)) (l : List α) :
    (PP.stackRun s l).Sublist (l ++ PP.pushed s) := by
  induction s generalizing l with
  | nil => simp [PP.stackRun, PP.pushed]
  | cons a t ih =>
    cases a with
    | push x =>
      show (PP.stackRun t (l ++ [x])).Sublist (l ++ (x :: PP.pushed t))
      have hrec := ih (l ++ [x])
      rwa [List.append_assoc, List.singleton_append] at hrec
    | pop =>
      show (PP.stackRun t l.dropLast).Sublist (l ++ PP.pushed t)
      exact (ih l.dropLast).trans ((List.dropLast_sublist l).append_right _)

/-- C4 as stated is false at a concrete input: for the sequence
`[PopBack, PushBack 5]` on an initially empty vector the final size is 1, but
pushes − pops = 0 — the `PopBack` on the empty container is a no-op. -/
theorem push_pop_count_cex :
    ¬ ((PP.run [PP.pop, PP.push 5] (Vec.empty : Vec Nat)).size
        = PP.countPush [PP.pop, PP.push (5 : Nat)]
          - PP.countPop [PP.pop, PP.push (5 : Nat)]) := by
  decide

/-- C4 amended: for every sequence of `PushBack`/`PopBack` calls from an empty
vector in which no `PopBack` is applied to an empty container, the final size
is pushes − pops; for every sequence the elements are exactly those of the
reference stack semantics (push appends, pop drops the last element of a
nonempty stack), and hence a subsequence of the pushed values in push order. -/
theorem push_pop_sequence (s : List (PP α)) :
    (PP.noPopOnEmpty 0 s = true →
      (PP.run s (Vec.empty : Vec α)).size = PP.countPush s - PP.countPop s) ∧
    (PP.run s (Vec.empty : Vec α)).elems = PP.stackRun s [] ∧
    ((PP.run s (Vec.empty : Vec α)).elems).Sublist (PP.pushed s) := by
  have he : (PP.run s (Vec.empty : Vec α)).elems = PP.stackRun s [] :=
    run_elems s Vec.empty
  refine ⟨?_, he, ?_⟩
  · intro h
    have hl := stackRun_length s ([] : List α) h
    rw [List.length_nil] at hl
    show (PP.run s (Vec.empty : Vec α)).elems.length
      = PP.countPush s - PP.countPop s
    rw [he]
    omega
  · rw [he]
    have hs := stackRun_sublist s ([] : List α)
    rwa [List.nil_append] at hs

/-- Witness for C4 (amended) at the sequence push 1, push 2, pop, push 3: the
final size is 3 − 1 = 2. -/
theorem push_pop_sequence_witness :
    (PP.run [PP.push 1, PP.push 2, PP.pop, PP.push 3] (Vec.empty : Vec Nat)).size
      = PP.countPush [PP.push 1, PP.push 2, PP.pop, PP.push (3 : Nat)]
        - PP.countPop [PP.push 1, PP.push 2, PP.pop, PP.push (3 : Nat)] :=
  (push_pop_sequence [PP.push 1, PP.push 2, PP.pop, PP.push 3]).1 (by decide)

/-- C2: a throwing construction in `EmplaceBack` propagates with the vector
left unmodified on both the in-place and the reallocating path; a successful
call appends exactly the new value; with spare capacity the only construction
is in place at the first free slot (index `size_`); on the reallocating path
the new element is constructed at its final index `size_` in the new block
strictly before the old elements `0, ..., size_-1` are transferred. -/
theorem emplaceBack_exception_safety :
    (∀ v : Vec α, v.emplaceBackE none = Except.error v) ∧
    (∀ (v : Vec α) (x : α), (v.emplaceBack x).elems = v.elems ++ [x] ∧
      (v.emplaceBack x).size = v.size + 1) ∧
    (∀ v : Vec α, v.size < v.cap → v.emplaceBackActs = [Vec.Act.ctorNew v.size]) ∧
    (∀ v : Vec α, ¬ v.size < v.cap →
      v.emplaceBackActs
        = Vec.Act.ctorNew v.size :: (List.range v.size).map Vec.Act.transferOld) := by
  refine ⟨fun _ => rfl, ?_, ?_, ?_⟩
  · intro v x
    refine ⟨Vec.emplaceBack_elems v x, ?_⟩
    show (v.emplaceBack x).elems.length = v.size + 1
    rw [Vec.emplaceBack_elems, List.length_append]
    rfl
  · intro v h
    unfold Vec.emplaceBackActs
    rw [if_pos h]
  · intro v h
    unfold Vec.emplaceBackActs
    rw [if_neg h]

/-- Witness for C2: the construction-order conjuncts evaluated on a vector
with spare capacity and on a full one. -/
theorem emplaceBack_exception_safety_witness :
    (Vec.mk 2 [5] : Vec Nat).emplaceBackActs = [Vec.Act.ctorNew 1] ∧
    (Vec.mk 1 [5] : Vec Nat).emplaceBackActs
      = Vec.Act.ctorNew 1 :: (List.range 1).map Vec.Act.transferOld :=
  ⟨emplaceBack_exception_safety.2.2.1 ⟨2, [5]⟩ (by decide),
    emplaceBack_exception_safety.2.2.2 ⟨1, [5]⟩ (by decide)⟩

/-- C8: `Insert` at any valid position of a well-formed vector followed by
`Erase` at the returned position restores the original element contents and
size. -/
theorem insert_erase_roundtrip [Inhabited α] (v : Vec α) (i : Nat) (x : α)
    (h : i ≤ v.size) :
    ((((v.insert i x).1).erase ((v.insert i x).2)).1).elems = v.elems ∧
    ((((v.insert i x).1).erase ((v.insert i x).2)).1).size = v.size := by
  have hidx : (v.insert i x).2 = i := Vec.emplace_idx v i x
  have he : ((v.insert i x).1).elems = v.elems.insertIdx i x :=
    Vec.emplace_elems v i x h
  have helems : ((((v.insert i x).1).erase ((v.insert i x).2)).1).elems = v.elems := by
    rw [hidx]
    show ((v.insert i x).1).elems.take i ++ ((v.insert i x).1).elems.drop (i + 1)
      = v.elems
    rw [he, ← List.eraseIdx_eq_take_drop_succ, List.eraseIdx_insertIdx]
  refine ⟨helems, ?_⟩
  show ((((v.insert i x).1).erase ((v.insert i x).2)).1).elems.length
    = v.elems.length
  rw [helems]

/-- Witness for C8: inserting 9 at position 1 of `[1,2,3]` and erasing at the
returned position restores `[1,2,3]`. -/
theorem insert_erase_roundtrip_witness :
    ((((Vec.mk 4 [1, 2, 3] : Vec Nat).insert 1 9).1.erase
        (((Vec.mk 4 [1, 2, 3] : Vec Nat).insert 1 9).2)).1).elems = [1, 2, 3] ∧
    ((((Vec.mk 4 [1, 2, 3] : Vec Nat).insert 1 9).1.erase
        (((Vec.mk 4 [1, 2, 3] : Vec Nat).insert 1 9).2)).1).size = 3 :=
  insert_erase_roundtrip ⟨4, [1, 2, 3]⟩ 1 9 (by decide)

/-- Size after `EmplaceBack`. -/
lemma Vec.emplaceBack_size (v : Vec α) (x : α) :
    (v.emplaceBack x).size = v.size + 1 := by
  show (v.emplaceBack x).elems.length = v.size + 1
  rw [Vec.emplaceBack_elems, List.length_append]
  rfl

/-- C7: every public mutating operation other than move and `Swap`, applied
with its precondition to a vector satisfying `Size() ≤ Capacity()`, yields a
vector still satisfying it, and never with a smaller capacity. -/
theorem op_preserves_invariant [Inhabited α] (op : Op α) (v : Vec α)
    (hwf : v.WF) (hv : op.valid v) :
    (op.apply v).WF ∧ v.cap ≤ (op.apply v).cap := by
  have hwf' : v.elems.length ≤ v.cap := hwf
  cases op with
  | push x =>
    show (v.pushBack x).WF ∧ v.cap ≤ (v.pushBack x).cap
    have hs := Vec.emplaceBack_size v x
    have hc := Vec.emplaceBack_cap v x
    show (v.emplaceBack x).WF ∧ v.cap ≤ (v.emplaceBack x).cap
    rw [Vec.WF, hs, hc, growCap_eq]
    have hsz : v.size = v.elems.length := rfl
    constructor <;> split_ifs <;> omega
  | pop =>
    show (v.popBack).WF ∧ v.cap ≤ (v.popBack).cap
    rw [Vec.WF, Vec.popBack_cap]
    constructor
    · show (v.popBack).elems.length ≤ v.cap
      rw [Vec.popBack_elems, List.length_dropLast]
      omega
    · exact Nat.le_refl _
  | emp i x =>
    show ((v.emplace i x).1).WF ∧ v.cap ≤ ((v.emplace i x).1).cap
    have hs := Vec.emplace_size v i x hv
    have hc := Vec.emplace_cap v i x
    rw [Vec.WF, hs, hc, growCap_eq]
    have hsz : v.size = v.elems.length := rfl
    constructor <;> split_ifs <;> omega
  | ers i =>
    show ((v.erase i).1).WF ∧ v.cap ≤ ((v.erase i).1).cap
    have hv' : i < v.elems.length := hv
    constructor
    · show (v.elems.take i ++ v.elems.drop (i + 1)).length ≤ v.cap
      rw [List.length_append, List.length_take, List.length_drop]
      omega
    · exact Nat.le_refl _
  | ins i x =>
    show ((v.emplace i x).1).WF ∧ v.cap ≤ ((v.emplace i x).1).cap
    have hs := Vec.emplace_size v i x hv
    have hc := Vec.emplace_cap v i x
    rw [Vec.WF, hs, hc, growCap_eq]
    have hsz : v.size = v.elems.length := rfl
    constructor <;> split_ifs <;> omega
  | reserve n =>
    show (v.reserve n).WF ∧ v.cap ≤ (v.reserve n).cap
    unfold Vec.reserve
    split_ifs with h
    · exact ⟨hwf, Nat.le_refl _⟩
    · constructor
      · show v.elems.length ≤ n
        omega
      · show v.cap ≤ n
        omega
  | resize n =>
    show (v.resize n).WF ∧ v.cap ≤ (v.resize n).cap
    unfold Vec.resize Vec.reserve
    have hsz : v.size = v.elems.length := rfl
    split_ifs with h1 h2 h3
    · exact ⟨hwf, Nat.le_refl _⟩
    · constructor
      · show (v.elems.take n).length ≤ v.cap
        rw [List.length_take]
        omega
      · exact Nat.le_refl _
    · constructor
      · show (v.elems ++ List.replicate (n - v.size) default).length ≤ v.cap
        rw [List.length_append, List.length_replicate]
        omega
      · exact Nat.le_refl _
    · constructor
      · show (v.elems ++ List.replicate (n - v.size) default).length ≤ n
        rw [List.length_append, List.length_replicate]
        omega
      · show v.cap ≤ n
        omega
  | assign b =>
    show (v.copyAssign b false).WF ∧ v.cap ≤ (v.copyAssign b false).cap
    unfold Vec.copyAssign
    rw [if_neg Bool.false_ne_true]
    have hb : b.size = b.elems.length := rfl
    have hs : v.size = v.elems.length := rfl
    split_ifs with h1 h2
    · constructor
      · show b.elems.length ≤ b.size
        omega
      · show v.cap ≤ b.size
        omega
    · constructor
      · show b.elems.length ≤ v.cap
        omega
      · exact Nat.le_refl _
    · constructor
      · show (b.elems.take v.size ++ b.elems.drop v.size).length ≤ v.cap
        rw [List.take_append_drop]
        omega
      · exact Nat.le_refl _
  | assignSelf =>
    exact ⟨hwf, Nat.le_refl _⟩

/-- Witness for C7: a reallocating `Emplace` on a full vector of capacity 1
keeps the invariant and grows the capacity. -/
theorem op_preserves_invariant_witness :
    ((Op.emp 0 7).apply (⟨1, [5]⟩ : Vec Nat)).WF ∧
      (Vec.mk 1 [5] : Vec Nat).cap ≤ ((Op.emp 0 7).apply (⟨1, [5]⟩ : Vec Nat)).cap :=
  op_preserves_invariant (Op.emp 0 7) ⟨1, [5]⟩ (by decide)
    (by show (0 : Nat) ≤ (Vec.mk 1 [5] : Vec Nat).size; decide)

end Claims2

section Sanity

example : (Vec.empty.pushBack 5 : Vec Nat).cap = 1 := by decide
example : ((Vec.empty.pushBack 5).pushBack 6 : Vec Nat).cap = 2 := by decide
example : (Vec.mk 4 [10, 20, 30] : Vec Nat).emplace 1 99 =
    (⟨4, [10, 99, 20, 30]⟩, 1) := by decide
example : (Vec.mk 3 [10, 20, 30] : Vec Nat).emplace 1 99 =
    (⟨6, [10, 99, 20, 30]⟩, 1) := by decide
example : (Vec.mk 4 [10, 20, 30] : Vec Nat).erase 1 = (⟨4, [10, 30]⟩, 1) := by decide

end Sanity
